import Mathlib

/-!
Verification of the journal RAG engine (`rag/journal_rag.py`).

The development shallowly embeds the `JournalRAG` class: the chunker
`_chunk_text`, the ingestion pipeline `ingest_from_ocr`, the lifecycle
operations (`delete_entry_by_date`, `delete_entry_by_id`,
`clear_all_entries`), the backup/retention manager (`backup`,
`list_backups`, `restore`) and the statistics aggregation (`get_stats`).

Python strings are modelled as `List Char` (with `String` wrappers),
Python integers as `Int`, the ChromaDB collection as the list of its
stored records in insertion order, and the backups directory as a list
of snapshots tagged with their creation times.  The `while` loop of
`_chunk_text` is embedded with an explicit fuel parameter: a `none`
result means the loop did not finish within the given fuel.
-/

namespace JournalRag

/-- Python slice-bound normalization: for `s[a:b]`, a negative bound counts
from the end of the string and the result is clamped into `[0, n]`. -/
def pySliceIdx (n : Nat) (i : Int) : Nat :=
  if i < 0 then ((n : Int) + i).toNat else min i.toNat n

/-- Python slice `s[a:b]` over a list of characters. -/
def pySlice (l : List Char) (a b : Int) : List Char :=
  (l.take (pySliceIdx l.length b)).drop (pySliceIdx l.length a)

/-- Python indexing `s[i]`: a negative index counts from the end; an index
out of range after that adjustment raises `IndexError`, modelled as `none`. -/
def pyGet (l : List Char) (i : Int) : Option Char :=
  let j : Int := if i < 0 then i + l.length else i
  if j < 0 then none else l.get? j.toNat

/-- Whitespace in the sense of `str.isspace` (the ASCII part, which is all
the source texts use). -/
def pyIsSpace (c : Char) : Bool :=
  c == ' ' || c == '\t' || c == '\n' || c == '\x0d' || c == '\x0b' || c == '\x0c'

/-- Python `str.strip()`: remove leading and trailing whitespace. -/
def pyStrip (l : List Char) : List Char :=
  ((l.dropWhile pyIsSpace).reverse.dropWhile pyIsSpace).reverse

/-- Python `str.strip()` on `String`. -/
def pyStripS (s : String) : String :=
  String.mk (pyStrip s.data)

/-- Python `s.startswith(p)`. -/
def pyStartsWith (s p : String) : Bool :=
  p.data.isPrefixOf s.data

/-- The sentence-terminating characters of `_chunk_text`: `.`, `!`, `?`. -/
def isSentenceEnd (c : Char) : Bool :=
  c == '.' || c == '!' || c == '?'

/-- The hit test of the backward scan in `_chunk_text`:
`text[i] in '.!?' and i + 1 < len(text) and text[i + 1].isspace()`. -/
def boundaryHit (l : List Char) (i : Int) : Bool :=
  (match pyGet l i with
   | some c => isSentenceEnd c
   | none => false)
  && decide (i + 1 < (l.length : Int))
  && (match pyGet l (i + 1) with
      | some c => pyIsSpace c
      | none => false)

/-- The loop `for i in range(end, lo, -1)` of `_chunk_text`, scanning
backward from `i` for `steps` positions and returning the first index whose
hit test succeeds. -/
def scanBack (l : List Char) : Nat → Int → Option Int
  | 0, _ => none
  | Nat.succ k, i => if boundaryHit l i then some i else scanBack l k (i - 1)

/-- One window-end computation of `_chunk_text`: `end = start + chunk_size`,
then, when `end < len(text)`, the backward scan over
`range(end, max(start + chunk_size - 100, start), -1)` may move `end` to
just after a sentence boundary. -/
def computeEnd (l : List Char) (cs start : Int) : Int :=
  let e0 := start + cs
  if e0 < (l.length : Int) then
    let lo := max (start + cs - 100) start
    match scanBack l (e0 - lo).toNat e0 with
    | some i => i + 1
    | none => e0
  else e0

/-- The `while start < len(text)` loop of `_chunk_text`, with explicit fuel.
Each iteration appends `text[start:end].strip()` and continues from
`end - overlap`; `none` means the fuel ran out before the loop finished. -/
def chunkLoop (l : List Char) (cs ov : Int) : Nat → Int → List (List Char) → Option (List (List Char))
  | 0, _, _ => none
  | Nat.succ k, start, acc =>
    if start < (l.length : Int) then
      let e := computeEnd l cs start
      chunkLoop l cs ov k (e - ov) (pyStrip (pySlice l start e) :: acc)
    else
      some acc.reverse

/-- The chunker `_chunk_text(text, chunk_size, overlap)`: texts no longer than
`chunk_size` are returned whole; otherwise the chunking loop runs.  The
fuel bound is a generous allowance for terminating runs of the Python
loop; `none` reports that the loop did not finish within it. -/
def chunk_text (text : String) (cs ov : Int) : Option (List String) :=
  let l := text.data
  if (l.length : Int) ≤ cs then some [text]
  else (chunkLoop l cs ov (l.length + ov.toNat + 2) 0 []).map (List.map String.mk)

/-- The per-chunk metadata written by `ingest_from_ocr`. -/
structure ChunkMeta where
  date : String
  chunk_index : Nat
  total_chunks : Nat
  word_count : Nat
  source_file : String
deriving DecidableEq, Repr

/-- One record of the ChromaDB collection: its id, the stored chunk text
(the document) and its metadata. -/
structure Record where
  id : String
  document : String
  metadata : ChunkMeta
deriving DecidableEq, Repr

/-- The collection contents, in insertion order. -/
abbrev St := List Record

/-- The deterministic chunk id `f"{date}_chunk_{i}"`. -/
def mkId (date : String) (i : Nat) : String :=
  date ++ "_chunk_" ++ toString i

/-- The dedup check `collection.get(ids=[doc_id])` followed by
`if existing['ids']`. -/
def hasId (st : St) (id : String) : Bool :=
  st.any fun r => r.id == id

/-- The inner `for i, chunk in enumerate(chunks)` loop of `ingest_from_ocr`:
each chunk whose id is absent is added with its metadata; chunks whose id
already exists are skipped. -/
def addChunksGo (date : String) (total wc : Nat) (src : String) :
    List String → Nat → St → St
  | [], _, st => st
  | c :: rest, i, st =>
    if hasId st (mkId date i) then
      addChunksGo date total wc src rest (i + 1) st
    else
      addChunksGo date total wc src rest (i + 1)
        (st ++ [⟨mkId date i, c, ⟨date, i, total, wc, src⟩⟩])

/-- The metadata file paired with a source text file: absent, present but
holding invalid JSON, or a parsed object with `entry_date` and
`word_count`. -/
inductive MetaFile
  | missing
  | invalid
  | valid (entry_date : String) (word_count : Nat)
deriving DecidableEq, Repr

/-- One source text file of the OCR output directory: its stem, the result
of reading it (`none` models a read that raises) and its metadata file. -/
structure SourceFile where
  stem : String
  text : Option String
  meta : MetaFile
deriving DecidableEq, Repr

/-- The result of an ingestion run: normal return with the final collection
and the `ingested` count, an uncaught exception leaving the collection as
it was at the raise, or a run on which the chunking loop never finishes. -/
inductive Outcome
  | ok (st : St) (count : Nat)
  | error (st : St)
  | undef
deriving DecidableEq, Repr

/-- The `for text_file in text_files` loop of `ingest_from_ocr`.  A file
with no metadata is skipped; an unreadable text file or invalid metadata
JSON raises (aborting the loop); empty (after strip) text is skipped;
otherwise the text is chunked and each new chunk is added. -/
def ingestLoop (cs ov : Int) : List SourceFile → St → Nat → Outcome
  | [], st, n => Outcome.ok st n
  | f :: rest, st, n =>
    match f.meta with
    | MetaFile.missing => ingestLoop cs ov rest st n
    | MetaFile.invalid => Outcome.error st
    | MetaFile.valid date wc =>
      match f.text with
      | none => Outcome.error st
      | some raw =>
        let text := pyStripS raw
        if text = "" then ingestLoop cs ov rest st n
        else
          match chunk_text text cs ov with
          | none => Outcome.undef
          | some chunks =>
            ingestLoop cs ov rest
              (addChunksGo date chunks.length wc (f.stem ++ ".txt") chunks 0 st)
              (n + 1)

/-- The pipeline `ingest_from_ocr(ocr_output_dir, chunk_size, overlap)` over the sorted
list of text files of the source directory (the directory-existence check
and file enumeration are outside the model). -/
def ingest_from_ocr (files : List SourceFile) (cs ov : Int) (st : St) : Outcome :=
  ingestLoop cs ov files st 0

/-- One snapshot directory in `vector_db_backups`: its creation time
(`st_mtime`), its directory name and the copied index contents. -/
structure Snapshot where
  ctime : Nat
  name : String
  contents : St
deriving DecidableEq, Repr

/-- The system state: the live collection, the snapshot directories in the
backups directory, and a clock supplying the strictly increasing creation
timestamps. -/
structure Sys where
  db : St
  backups : List Snapshot
  clock : Nat
deriving DecidableEq, Repr

/-- Ordering of snapshot directories by creation time (`st_mtime`). -/
def snapLe (a b : Snapshot) : Prop := a.ctime ≤ b.ctime

instance : DecidableRel snapLe := fun a b => Nat.decLe a.ctime b.ctime

/-- The directory name `backup_<timestamp>_<reason>` of a snapshot. -/
def bname (c : Nat) (reason : String) : String :=
  "backup_" ++ toString c ++ "_" ++ reason

/-- The snapshot that `backup(reason)` creates from a state:
`backup_<timestamp>_<reason>`, holding a copy of the live collection. -/
def presnap (reason : String) (sys : Sys) : Snapshot :=
  ⟨sys.clock, bname sys.clock reason, sys.db⟩

/-- The operation `backup(reason)`: copy the index into a new timestamped snapshot, then
sort all snapshot directories by creation time ascending and, while more
than 5 remain, remove the oldest.  Returns the new state and the backup
path name. -/
def backup (reason : String) (sys : Sys) : Sys × String :=
  let snap := presnap reason sys
  let all := List.insertionSort snapLe (sys.backups ++ [snap])
  (⟨sys.db, all.drop (all.length - 5), sys.clock + 1⟩, snap.name)

/-- The operation `list_backups()`: the snapshot directories whose name starts with
`backup_`, sorted by creation time descending. -/
def list_backups (sys : Sys) : List Snapshot :=
  ((List.insertionSort snapLe sys.backups).reverse).filter
    fun s => pyStartsWith s.name "backup_"

/-- The operation `restore(backup_path)`: the only guard in the code is
`if not backup.is_dir()`.  The parameter `fs` models the filesystem: it
maps each path that names an existing directory to the collection state
that removing the live index, copying that directory over it and
reinitializing the client yields, and is `none` on paths that name no
existing directory.  When the path exists — whether or not it is a
snapshot — the live collection is replaced by the copy; only when it does
not exist does the call report failure and leave the state unchanged. -/
def restore (fs : String → Option St) (path : String) (sys : Sys) : Bool × Sys :=
  match fs path with
  | none => (false, sys)
  | some c => (true, { sys with db := c })

/-- The operation `delete_entry_by_date(date)`: back up with reason `pre-delete`, collect
the ids whose metadata date matches exactly, delete them and return how
many there were (0, with the backup already taken, when none match). -/
def delete_entry_by_date (date : String) (sys : Sys) : Nat × Sys :=
  let sys1 := (backup "pre-delete" sys).1
  let matching := sys1.db.filter fun r => r.metadata.date == date
  if matching.isEmpty then (0, sys1)
  else
    (matching.length,
     { sys1 with db := sys1.db.filter fun r => !(r.metadata.date == date) })

/-- The operation `delete_entry_by_id(entry_id)`: back up with reason `pre-delete`,
collect the stored ids that start with the given prefix, delete them and
return `true` when any matched, `false` when none did. -/
def delete_entry_by_id (entry_id : String) (sys : Sys) : Bool × Sys :=
  let sys1 := (backup "pre-delete" sys).1
  let matching := sys1.db.filter fun r => pyStartsWith r.id entry_id
  if matching.isEmpty then (false, sys1)
  else
    (true, { sys1 with db := sys1.db.filter fun r => !(pyStartsWith r.id entry_id) })

/-- The operation `clear_all_entries()`: when the collection is already empty return 0
without backing up; otherwise back up with reason `pre-clear`, delete every
record and return how many there were. -/
def clear_all_entries (sys : Sys) : Nat × Sys :=
  let total := sys.db.length
  if total = 0 then (0, sys)
  else
    let sys1 := (backup "pre-clear" sys).1
    (total, { sys1 with db := [] })

/-- The dictionary returned by `get_stats()`. -/
structure Stats where
  total_entries : Nat
  total_chunks : Nat
  total_words : Nat
  first : Option String
  last : Option String
deriving DecidableEq, Repr

/-- The operation `get_stats()`: scan all metadata, sum `word_count` over every stored
chunk, and take the unique dates sorted ascending for the entry count and
the date range. -/
def get_stats (st : St) : Stats :=
  let dates := st.map fun r => r.metadata.date
  let unique_dates := List.insertionSort (· ≤ ·) dates.dedup
  { total_entries := unique_dates.length
    total_chunks := st.length
    total_words := (st.map fun r => r.metadata.word_count).sum
    first := unique_dates.head?
    last := unique_dates.getLast? }

/-- Modelled from the spec (§4.8, §8): the `total_words` aggregate as the
spec describes it — the per-chunk `word_count` summed once per unique date,
not once per stored chunk. -/
def total_words_once_per_date (st : St) : Nat :=
  (((st.map fun r => r.metadata.date).dedup).map fun d =>
    ((st.find? fun r => r.metadata.date == d).map fun r => r.metadata.word_count).getD 0).sum

/-! Concrete fixtures used by counterexamples and witnesses. -/

/-- A text of eleven letters with no sentence boundary. -/
def c9text : String := "aaaaaaaaaaa"

/-- A text whose first sentence ends at index 1, so the boundary backoff
moves the window end to 2. -/
def c10text : String := "a. bcdefgh"

/-- A well-formed source entry. -/
def wGood1 : SourceFile := ⟨"2025-01-15", some "Today was a good day.", MetaFile.valid "2025-01-15" 5⟩

/-- A source entry whose metadata file holds invalid JSON. -/
def wBadJson : SourceFile := ⟨"2025-01-16", some "Fine text here.", MetaFile.invalid⟩

/-- A second well-formed source entry, after the malformed one. -/
def wGood2 : SourceFile := ⟨"2025-01-17", some "Another day.", MetaFile.valid "2025-01-17" 3⟩

/-- The record that ingesting `wGood1` stores. -/
def wRecA : Record := ⟨"2025-01-15_chunk_0", "Today was a good day.", ⟨"2025-01-15", 0, 1, 5, "2025-01-15.txt"⟩⟩

/-- First chunk of a two-chunk entry dated 2025-01-15 with word count 100. -/
def wRec1 : Record := ⟨"2025-01-15_chunk_0", "t1", ⟨"2025-01-15", 0, 2, 100, "a.txt"⟩⟩

/-- Second chunk of the same entry. -/
def wRec2 : Record := ⟨"2025-01-15_chunk_1", "t2", ⟨"2025-01-15", 1, 2, 100, "a.txt"⟩⟩

/-- A chunk of an entry dated 2025-02-03 with word count 7. -/
def wRec3 : Record := ⟨"2025-02-03_chunk_0", "t3", ⟨"2025-02-03", 0, 1, 7, "b.txt"⟩⟩

/-- An index holding one chunk with id prefix `2025-01-15`. -/
def wSysA : Sys := ⟨[wRec1], [], 10⟩

/-- An index holding two chunks with id prefix `2025-01-15`. -/
def wSysB : Sys := ⟨[wRec1, wRec2], [], 10⟩

/-- A state with one snapshot available for restore. -/
def wSysR : Sys := ⟨[wRec3], [⟨4, "backup_4_manual", [wRec1, wRec2]⟩], 10⟩

/-- A filesystem for the restore claims: the snapshot directory
`backup_4_manual` of `wSysR` exists, and so does `somedir` — an existing
directory that is not a snapshot (no snapshot of `wSysR` bears its name)
and from which reinitialization yields an empty collection; every other
path names no existing directory. -/
def wFs : String → Option St := fun p =>
  if p = "backup_4_manual" then some [wRec1, wRec2]
  else if p = "somedir" then some []
  else none

/-! ## Claims -/

/-- **C7** (code bug). The claim says every chunk returned by
`_chunk_text(text, chunk_size, overlap)` has length at most `chunk_size`
(the function's own docstring calls `chunk_size` the "Maximum characters
per chunk").  The backward scan starts at index `end = start + chunk_size`
itself, one position past the window, so a sentence terminator sitting
exactly at that index yields a chunk of `chunk_size + 1` characters:
chunking `"aaaaa. b"` with `chunk_size = 5, overlap = 0` produces the
6-character chunk `"aaaaa."`. -/
theorem claim_C7_chunk_exceeds_chunk_size :
    chunk_text "aaaaa. b" 5 0 = some ["aaaaa.", "b"] ∧
    5 < ("aaaaa." : String).length :=
  ⟨rfl, by decide⟩

/-- **C9** (code bug). The claim says `overlap >= chunk_size` is rejected
or clamped.  The code does neither: with `chunk_size = 5, overlap = 5` on
an 11-character text with no sentence boundary, each iteration sets
`end = start + 5` and restarts from `end - 5 = start`, so the window never
advances and the loop never terminates — `chunkLoop` returns `none` at
every fuel. -/
theorem claim_C9_overlap_not_validated :
    chunk_text c9text 5 5 = none ∧
    ∀ (fuel : Nat) (acc : List (List Char)),
      chunkLoop c9text.data 5 5 fuel 0 acc = none := by
  refine ⟨rfl, fun fuel => ?_⟩
  induction fuel with
  | zero => intro acc; rfl
  | succ k ih =>
    intro acc
    rw [show chunkLoop c9text.data 5 5 (k + 1) 0 acc
          = chunkLoop c9text.data 5 5 k 0 (pyStrip (pySlice c9text.data 0 5) :: acc) from rfl]
    exact ih _

/-- Helper for C10: once the window start of `_chunk_text` reaches `-1` on
`c10text` with `chunk_size = 5, overlap = 3`, every further iteration finds
the sentence boundary at index 1 again, sets `end = 2`, appends the empty
chunk `text[-1:2].strip() = ""` and restarts from `2 - 3 = -1`. -/
theorem chunkLoop_c10_stuck :
    ∀ (fuel : Nat) (acc : List (List Char)),
      chunkLoop c10text.data 5 3 fuel (-1) acc = none := by
  intro fuel
  induction fuel with
  | zero => intro acc; rfl
  | succ k ih =>
    intro acc
    rw [show chunkLoop c10text.data 5 3 (k + 1) (-1) acc
          = chunkLoop c10text.data 5 3 k (-1) ([] :: acc) from rfl]
    exact ih _

/-- **C10** (code bug). The claim says that for `0 ≤ overlap < chunk_size`
the window start strictly advances on every iteration, so `_chunk_text`
returns a finite list.  On `"a. bcdefgh"` with `chunk_size = 5,
overlap = 3` the first window is shortened to `end = 2` by the sentence
boundary at index 1, so the next start is `2 - 3 = -1`: the start moved
backward, and from `-1` the loop repeats forever — `chunkLoop` returns
`none` at every fuel. -/
theorem claim_C10_chunker_nonterminating :
    chunk_text c10text 5 3 = none ∧
    ∀ (fuel : Nat) (acc : List (List Char)),
      chunkLoop c10text.data 5 3 fuel 0 acc = none := by
  refine ⟨rfl, fun fuel acc => ?_⟩
  cases fuel with
  | zero => rfl
  | succ k =>
    rw [show chunkLoop c10text.data 5 3 (k + 1) 0 acc
          = chunkLoop c10text.data 5 3 k (-1) (pyStrip (pySlice c10text.data 0 2) :: acc) from rfl]
    exact chunkLoop_c10_stuck k _

/-- **C4** (counterexample). The claim says a source entry with invalid
metadata JSON is logged and skipped and the remaining entries are still
ingested.  In the code `json.load` is not wrapped in any handler: with a
well-formed entry, then an invalid-JSON entry, then another well-formed
entry, the run raises at the second entry and aborts, leaving only the
first entry's chunk stored and the third entry unprocessed. -/
theorem claim_C4_counterexample :
    ingest_from_ocr [wGood1, wBadJson, wGood2] 500 50 [] = Outcome.error [wRecA] ∧
    hasId [wRecA] "2025-01-17_chunk_0" = false :=
  ⟨rfl, rfl⟩

/-- **C3** (counterexample). The claim says `total_words` counts each
date's `word_count` once per unique date.  `get_stats` sums `word_count`
over every stored chunk: on an index holding the two chunks of one entry
dated 2025-01-15 with `word_count = 100`, it reports 200, not 100. -/
theorem claim_C3_counterexample :
    (get_stats [wRec1, wRec2]).total_words = 200 ∧
    total_words_once_per_date [wRec1, wRec2] = 100 ∧
    (get_stats [wRec1, wRec2]).total_words ≠ total_words_once_per_date [wRec1, wRec2] :=
  ⟨rfl, rfl, by decide⟩

/-- **C8** (counterexample). The claim says the delete-by-entry-id
operation returns the count of chunks deleted.  It returns a boolean: on
an index with two chunks matching the prefix `2025-01-15` it deletes two
and returns `true`, and on an index with one matching chunk it deletes one
and returns the same `true`, so its return value is not the count
deleted. -/
theorem claim_C8_counterexample :
    (delete_entry_by_id "2025-01-15" wSysB).1 = (delete_entry_by_id "2025-01-15" wSysA).1 ∧
    wSysB.db.length - (delete_entry_by_id "2025-01-15" wSysB).2.db.length = 2 ∧
    wSysA.db.length - (delete_entry_by_id "2025-01-15" wSysA).2.db.length = 1 :=
  ⟨rfl, rfl, rfl⟩

/-! Helper lemmas about the ingestion pipeline. -/

/-- Membership of an id survives appending records. -/
theorem hasId_append_left {st : St} {id : String} (ext : St) (h : hasId st id = true) :
    hasId (st ++ ext) id = true := by
  simp only [hasId, List.any_append, Bool.or_eq_true]
  exact Or.inl h

/-- The chunk-adding loop only appends records to the collection. -/
theorem addChunksGo_ext (d : String) (t wc : Nat) (src : String) :
    ∀ (chunks : List String) (i : Nat) (st : St),
      ∃ ext, addChunksGo d t wc src chunks i st = st ++ ext := by
  intro chunks
  induction chunks with
  | nil => exact fun i st => ⟨[], by simp [addChunksGo]⟩
  | cons c rest ih =>
    intro i st
    cases h : hasId st (mkId d i) with
    | true =>
      obtain ⟨ext, he⟩ := ih (i + 1) st
      exact ⟨ext, by simp [addChunksGo, h, he]⟩
    | false =>
      obtain ⟨ext, he⟩ := ih (i + 1) (st ++ [⟨mkId d i, c, ⟨d, i, t, wc, src⟩⟩])
      refine ⟨⟨mkId d i, c, ⟨d, i, t, wc, src⟩⟩ :: ext, ?_⟩
      simp [addChunksGo, h, he]

/-- Ids present before the chunk-adding loop are present after it. -/
theorem hasId_addChunksGo (d : String) (t wc : Nat) (src : String)
    (chunks : List String) (i : Nat) (st : St) {id : String} (h : hasId st id = true) :
    hasId (addChunksGo d t wc src chunks i st) id = true := by
  obtain ⟨ext, he⟩ := addChunksGo_ext d t wc src chunks i st
  rw [he]
  exact hasId_append_left ext h

/-- After the chunk-adding loop, every id of the processed chunk range is
present (it was either added or found already present). -/
theorem addChunksGo_mem (d : String) (t wc : Nat) (src : String) :
    ∀ (chunks : List String) (i : Nat) (st : St) (j : Nat),
      i ≤ j → j < i + chunks.length →
      hasId (addChunksGo d t wc src chunks i st) (mkId d j) = true := by
  intro chunks
  induction chunks with
  | nil => intro i st j h1 h2; simp at h2; omega
  | cons c rest ih =>
    intro i st j h1 h2
    rcases Nat.eq_or_lt_of_le h1 with heq | hlt
    · subst heq
      cases h : hasId st (mkId d i) with
      | true =>
        simp only [addChunksGo, h, if_true]
        exact hasId_addChunksGo d t wc src rest (i + 1) st h
      | false =>
        simp only [addChunksGo, h, Bool.false_eq_true, if_false]
        apply hasId_addChunksGo
        simp [hasId]
    · cases h : hasId st (mkId d i) with
      | true =>
        simp only [addChunksGo, h, if_true]
        exact ih (i + 1) st j hlt (by simp at h2; omega)
      | false =>
        simp only [addChunksGo, h, Bool.false_eq_true, if_false]
        exact ih (i + 1) _ j hlt (by simp at h2; omega)

/-- When every id of the chunk range is already present, the chunk-adding
loop is the identity: every chunk is skipped as a duplicate. -/
theorem addChunksGo_skip (d : String) (t wc : Nat) (src : String) :
    ∀ (chunks : List String) (i : Nat) (st : St),
      (∀ j, i ≤ j → j < i + chunks.length → hasId st (mkId d j) = true) →
      addChunksGo d t wc src chunks i st = st := by
  intro chunks
  induction chunks with
  | nil => intro i st _; rfl
  | cons c rest ih =>
    intro i st hall
    have hi : hasId st (mkId d i) = true := hall i le_rfl (by simp)
    simp only [addChunksGo, hi, if_true]
    exact ih (i + 1) st fun j hj1 hj2 => hall j (by omega) (by simp; omega)

/-- Unfolding: the ingestion loop on an empty file list. -/
theorem ingestLoop_nil (cs ov : Int) (st : St) (n : Nat) :
    ingestLoop cs ov [] st n = Outcome.ok st n := rfl

/-- Unfolding: a file with no metadata is skipped and the loop continues. -/
theorem ingestLoop_cons_missing (cs ov : Int) (stem : String) (ot : Option String)
    (rest : List SourceFile) (st : St) (n : Nat) :
    ingestLoop cs ov (⟨stem, ot, MetaFile.missing⟩ :: rest) st n = ingestLoop cs ov rest st n := rfl

/-- Unfolding: invalid metadata JSON raises and aborts the loop. -/
theorem ingestLoop_cons_invalid (cs ov : Int) (stem : String) (ot : Option String)
    (rest : List SourceFile) (st : St) (n : Nat) :
    ingestLoop cs ov (⟨stem, ot, MetaFile.invalid⟩ :: rest) st n = Outcome.error st := rfl

/-- Unfolding: an unreadable text file raises and aborts the loop. -/
theorem ingestLoop_cons_unreadable (cs ov : Int) (stem d : String) (wc : Nat)
    (rest : List SourceFile) (st : St) (n : Nat) :
    ingestLoop cs ov (⟨stem, none, MetaFile.valid d wc⟩ :: rest) st n = Outcome.error st := rfl

/-- Unfolding: a readable file with parsed metadata is skipped when its
stripped text is empty, and otherwise chunked and added. -/
theorem ingestLoop_cons_valid (cs ov : Int) (stem d raw : String) (wc : Nat)
    (rest : List SourceFile) (st : St) (n : Nat) :
    ingestLoop cs ov (⟨stem, some raw, MetaFile.valid d wc⟩ :: rest) st n =
      (if pyStripS raw = "" then ingestLoop cs ov rest st n
       else
         match chunk_text (pyStripS raw) cs ov with
         | none => Outcome.undef
         | some chunks =>
           ingestLoop cs ov rest
             (addChunksGo d chunks.length wc (stem ++ ".txt") chunks 0 st) (n + 1)) := rfl

/-- A run of the ingestion loop that returns normally never removes ids
from the collection. -/
theorem ingestLoop_hasId_mono (cs ov : Int) :
    ∀ (s : List SourceFile) (st : St) (n : Nat) (st1 : St) (n1 : Nat),
      ingestLoop cs ov s st n = Outcome.ok st1 n1 →
      ∀ id, hasId st id = true → hasId st1 id = true := by
  intro s
  induction s with
  | nil =>
    intro st n st1 n1 h id hid
    rw [ingestLoop_nil] at h
    cases h
    exact hid
  | cons f rest ih =>
    intro st n st1 n1 h id hid
    obtain ⟨stem, ot, meta⟩ := f
    cases meta with
    | missing =>
      rw [ingestLoop_cons_missing] at h
      exact ih st n st1 n1 h id hid
    | invalid =>
      rw [ingestLoop_cons_invalid] at h
      cases h
    | valid d wc =>
      cases ot with
      | none =>
        rw [ingestLoop_cons_unreadable] at h
        cases h
      | some raw =>
        rw [ingestLoop_cons_valid] at h
        by_cases he : pyStripS raw = ""
        · rw [if_pos he] at h
          exact ih st n st1 n1 h id hid
        · rw [if_neg he] at h
          cases hch : chunk_text (pyStripS raw) cs ov with
          | none => rw [hch] at h; cases h
          | some chunks =>
            rw [hch] at h
            exact ih _ _ _ _ h id
              (hasId_addChunksGo d chunks.length wc (stem ++ ".txt") chunks 0 st hid)

/-- Rerunning the ingestion loop from the final state of a completed run
reproduces that state and count exactly: every chunk id the source
generates is already present, so every add is skipped. -/
theorem ingestLoop_idem (cs ov : Int) :
    ∀ (s : List SourceFile) (st : St) (n : Nat) (st1 : St) (n1 : Nat),
      ingestLoop cs ov s st n = Outcome.ok st1 n1 →
      ingestLoop cs ov s st1 n = Outcome.ok st1 n1 := by
  intro s
  induction s with
  | nil =>
    intro st n st1 n1 h
    rw [ingestLoop_nil] at h
    cases h
    exact ingestLoop_nil cs ov st n
  | cons f rest ih =>
    intro st n st1 n1 h
    obtain ⟨stem, ot, meta⟩ := f
    cases meta with
    | missing =>
      rw [ingestLoop_cons_missing] at h ⊢
      exact ih st n st1 n1 h
    | invalid =>
      rw [ingestLoop_cons_invalid] at h
      cases h
    | valid d wc =>
      cases ot with
      | none =>
        rw [ingestLoop_cons_unreadable] at h
        cases h
      | some raw =>
        rw [ingestLoop_cons_valid] at h ⊢
        by_cases he : pyStripS raw = ""
        · rw [if_pos he] at h ⊢
          exact ih st n st1 n1 h
        · rw [if_neg he] at h ⊢
          cases hch : chunk_text (pyStripS raw) cs ov with
          | none => rw [hch] at h; cases h
          | some chunks =>
            rw [hch] at h
            have h2 : ingestLoop cs ov rest
                (addChunksGo d chunks.length wc (stem ++ ".txt") chunks 0 st) (n + 1) =
                Outcome.ok st1 n1 := h
            show ingestLoop cs ov rest
                (addChunksGo d chunks.length wc (stem ++ ".txt") chunks 0 st1) (n + 1) =
                Outcome.ok st1 n1
            have hall : ∀ j, 0 ≤ j → j < 0 + chunks.length → hasId st1 (mkId d j) = true := by
              intro j hj1 hj2
              exact ingestLoop_hasId_mono cs ov rest _ _ _ _ h2 (mkId d j)
                (addChunksGo_mem d chunks.length wc (stem ++ ".txt") chunks 0 st j hj1 hj2)
            rw [addChunksGo_skip d chunks.length wc (stem ++ ".txt") chunks 0 st1 hall]
            exact ih _ _ _ _ h2

/-- **C1** (confirmed). Ingestion is idempotent: if a run of
`ingest_from_ocr` over a source directory completes with final collection
`st1` and count `n1`, then a second run over the same source from `st1`
returns exactly `Outcome.ok st1 n1` — the collection (hence its `count()`
and its set of chunk ids) is unchanged, because every chunk id is the pure
function of `(date, chunk_index)` already stored by the first run and the
pipeline skips ids that exist. -/
theorem claim_C1_ingest_idempotent (cs ov : Int) (s : List SourceFile) (st st1 : St)
    (n1 : Nat) (h : ingest_from_ocr s cs ov st = Outcome.ok st1 n1) :
    ingest_from_ocr s cs ov st1 = Outcome.ok st1 n1 :=
  ingestLoop_idem cs ov s st 0 st1 n1 h

/-- Witness for C1: ingesting one concrete entry into an empty collection
stores one chunk, and rerunning from that state changes nothing. -/
theorem claim_C1_witness :
    ingest_from_ocr [wGood1] 500 50 [wRecA] = Outcome.ok [wRecA] 1 :=
  claim_C1_ingest_idempotent 500 50 [wGood1] [] [wRecA] 1 rfl

/-- **C4** (amended claim). What the code actually does with malformed
input: a text file with no metadata file is skipped and the batch
continues; a file whose stripped text is empty is skipped and the batch
continues; but a metadata file with invalid JSON, or an unreadable text
file, raises an uncaught exception that aborts the whole batch with the
collection as it stood at the raise. -/
theorem claim_C4_malformed_input_amended (cs ov : Int) (stem d raw : String)
    (ot : Option String) (wc : Nat) (rest : List SourceFile) (st : St) (n : Nat) :
    ingestLoop cs ov (⟨stem, ot, MetaFile.missing⟩ :: rest) st n = ingestLoop cs ov rest st n ∧
    ingestLoop cs ov (⟨stem, some "  ", MetaFile.valid d wc⟩ :: rest) st n
      = ingestLoop cs ov rest st n ∧
    ingestLoop cs ov (⟨stem, some raw, MetaFile.invalid⟩ :: rest) st n = Outcome.error st ∧
    ingestLoop cs ov (⟨stem, none, MetaFile.valid d wc⟩ :: rest) st n = Outcome.error st :=
  ⟨rfl, rfl, rfl, rfl⟩

/-! Helper lemmas about the backup/retention manager and the lifecycle
operations. -/

/-- Inserting an element below a bound into a list capped by that bound
keeps the capping element at the back. -/
theorem orderedInsert_append_single {α : Type} (r : α → α → Prop) [DecidableRel r]
    (a x : α) (h : r a x) :
    ∀ l : List α, List.orderedInsert r a (l ++ [x]) = List.orderedInsert r a l ++ [x] := by
  intro l
  induction l with
  | nil => simp [List.orderedInsert, h]
  | cons b l ih =>
    by_cases hb : r a b
    · simp [List.orderedInsert, hb]
    · simp [List.orderedInsert, hb, ih]

/-- Sorting a list whose last element bounds all the others from above
sorts the front and keeps that element last. -/
theorem insertionSort_append_single {α : Type} (r : α → α → Prop) [DecidableRel r] (x : α) :
    ∀ l : List α, (∀ a ∈ l, r a x) →
      List.insertionSort r (l ++ [x]) = List.insertionSort r l ++ [x] := by
  intro l
  induction l with
  | nil => intro _; rfl
  | cons a l ih =>
    intro hall
    show List.orderedInsert r a (List.insertionSort r (l ++ [x]))
        = List.orderedInsert r a (List.insertionSort r l) ++ [x]
    rw [ih fun b hb => hall b (List.mem_cons_of_mem a hb)]
    exact orderedInsert_append_single r a x (hall a (List.mem_cons_self a l)) _

/-- A backup leaves the live collection untouched. -/
theorem backup_db (reason : String) (sys : Sys) : ((backup reason sys).1).db = sys.db := rfl

/-- A backup advances the clock. -/
theorem backup_clock (reason : String) (sys : Sys) :
    ((backup reason sys).1).clock = sys.clock + 1 := rfl

/-- After `backup`, the snapshot directories are the retained tail of the
previous ones sorted by creation time, with the new snapshot (whose
creation time exceeds all previous ones) at the back. -/
theorem backup_backups (reason : String) (sys : Sys)
    (hinv : ∀ b ∈ sys.backups, b.ctime < sys.clock) :
    ((backup reason sys).1).backups =
      (List.insertionSort snapLe sys.backups).drop (sys.backups.length + 1 - 5)
        ++ [presnap reason sys] := by
  have happ : List.insertionSort snapLe (sys.backups ++ [presnap reason sys])
      = List.insertionSort snapLe sys.backups ++ [presnap reason sys] :=
    insertionSort_append_single snapLe (presnap reason sys) sys.backups
      fun b hb => Nat.le_of_lt (hinv b hb)
  have hlen : (List.insertionSort snapLe sys.backups).length = sys.backups.length :=
    (List.perm_insertionSort snapLe sys.backups).length_eq
  show (List.insertionSort snapLe (sys.backups ++ [presnap reason sys])).drop
      ((List.insertionSort snapLe (sys.backups ++ [presnap reason sys])).length - 5)
      = _
  rw [happ]
  rw [List.length_append, hlen]
  rw [List.drop_append_eq_append_drop]
  have h1 : sys.backups.length + [presnap reason sys].length - 5
      - (List.insertionSort snapLe sys.backups).length = 0 := by
    rw [hlen]; simp only [List.length_singleton]; omega
  rw [h1]
  simp

/-- The snapshot just taken is always among the retained snapshot
directories: retention only evicts older snapshots. -/
theorem presnap_mem_backup (reason : String) (sys : Sys)
    (hinv : ∀ b ∈ sys.backups, b.ctime < sys.clock) :
    presnap reason sys ∈ ((backup reason sys).1).backups := by
  rw [backup_backups reason sys hinv]
  exact List.mem_append_right _ (List.mem_singleton_self _)

/-- When the existing snapshots are already sorted by creation time, a
backup appends the new snapshot and drops from the front down to five. -/
theorem backup_sorted_step (reason : String) (sys : Sys)
    (hs : List.Sorted snapLe sys.backups) (hinv : ∀ b ∈ sys.backups, b.ctime < sys.clock) :
    (backup reason sys).1 =
      ⟨sys.db, (sys.backups ++ [presnap reason sys]).drop (sys.backups.length + 1 - 5),
       sys.clock + 1⟩ := by
  have hb := backup_backups reason sys hinv
  rw [hs.insertionSort_eq] at hb
  have heq : (sys.backups ++ [presnap reason sys]).drop (sys.backups.length + 1 - 5)
      = sys.backups.drop (sys.backups.length + 1 - 5) ++ [presnap reason sys] := by
    rw [List.drop_append_eq_append_drop]
    have h0 : sys.backups.length + 1 - 5 - sys.backups.length = 0 := by omega
    rw [h0]
    rfl
  show (⟨((backup reason sys).1).db, ((backup reason sys).1).backups,
        ((backup reason sys).1).clock⟩ : Sys) = _
  rw [backup_db, backup_clock, hb, heq]

/-- Every snapshot directory name produced by `backup` starts with
`backup_`, so `list_backups` never filters one out. -/
theorem pyStartsWith_bname (c : Nat) (r : String) :
    pyStartsWith (bname c r) "backup_" = true := by
  unfold pyStartsWith bname
  rw [List.isPrefixOf_iff_prefix, String.data_append, String.data_append, String.data_append,
    List.append_assoc, List.append_assoc]
  exact List.prefix_append _ _

/-- Both branches of `delete_entry_by_date` carry the backups produced by
the initial `backup("pre-delete")` call. -/
theorem delete_by_date_backups (date : String) (sys : Sys) :
    ((delete_entry_by_date date sys).2).backups = ((backup "pre-delete" sys).1).backups := by
  unfold delete_entry_by_date
  dsimp only []
  split <;> rfl

/-- Both branches of `delete_entry_by_id` carry the backups produced by
the initial `backup("pre-delete")` call. -/
theorem delete_by_id_backups (entry_id : String) (sys : Sys) :
    ((delete_entry_by_id entry_id sys).2).backups = ((backup "pre-delete" sys).1).backups := by
  unfold delete_entry_by_id
  dsimp only []
  split <;> rfl

/-- On a non-empty collection, `clear_all_entries` carries the backups
produced by the `backup("pre-clear")` call. -/
theorem clear_backups (sys : Sys) (h : sys.db ≠ []) :
    ((clear_all_entries sys).2).backups = ((backup "pre-clear" sys).1).backups := by
  unfold clear_all_entries
  rw [if_neg (by simpa [List.length_eq_zero] using h)]

/-- Filtering away the complement of an empty filter changes nothing. -/
theorem isEmpty_filter_not_eq_self {α : Type} (p : α → Bool) (l : List α)
    (h : (l.filter p).isEmpty = true) : l.filter (fun a => !(p a)) = l := by
  rw [List.isEmpty_iff] at h
  rw [List.filter_eq_nil_iff] at h
  apply List.filter_eq_self.mpr
  intro a ha
  simp [h a ha]

/-- **C2** (confirmed). Every destructive operation snapshots the
pre-deletion state before removing chunks: `delete_entry_by_date` and
`delete_entry_by_id` always leave a `pre-delete` snapshot holding a copy
of the collection as it was before the call among the retained backups,
`clear_all_entries` leaves a `pre-clear` one whenever the collection is
non-empty, and on an already-empty collection `clear_all_entries` returns
0 and changes nothing — in particular it takes no backup.  (The clock
invariant says existing snapshots were created before now, which is how
directory modification times behave.) -/
theorem claim_C2_snapshot_before_destructive (sys : Sys) (date entry_id : String)
    (hinv : ∀ b ∈ sys.backups, b.ctime < sys.clock) :
    presnap "pre-delete" sys ∈ ((delete_entry_by_date date sys).2).backups ∧
    presnap "pre-delete" sys ∈ ((delete_entry_by_id entry_id sys).2).backups ∧
    (sys.db ≠ [] → presnap "pre-clear" sys ∈ ((clear_all_entries sys).2).backups) ∧
    clear_all_entries ⟨[], sys.backups, sys.clock⟩ = (0, ⟨[], sys.backups, sys.clock⟩) := by
  refine ⟨?_, ?_, ?_, rfl⟩
  · rw [delete_by_date_backups]
    exact presnap_mem_backup "pre-delete" sys hinv
  · rw [delete_by_id_backups]
    exact presnap_mem_backup "pre-delete" sys hinv
  · intro h
    rw [clear_backups sys h]
    exact presnap_mem_backup "pre-clear" sys hinv

/-- Witness for C2: on a concrete two-chunk index, deleting by date and
clearing both leave a snapshot of the pre-deletion contents. -/
theorem claim_C2_witness :
    presnap "pre-delete" wSysB ∈ ((delete_entry_by_date "2025-01-15" wSysB).2).backups ∧
    presnap "pre-clear" wSysB ∈ ((clear_all_entries wSysB).2).backups := by
  have h := claim_C2_snapshot_before_destructive wSysB "2025-01-15" "2025-01"
    (by intro b hb; cases hb)
  exact ⟨h.1, h.2.2.1 (by decide)⟩

/-- **C5** (confirmed). The retention bound: starting from a state with no
snapshots, 7 sequential `backup` calls (whose creation times `t ... t + 6`
are distinct by construction) leave exactly 5 snapshot directories, and
`list_backups` returns exactly those 5 — the 5 most recently created, in
descending creation order; the two oldest (`t` and `t + 1`) were removed
oldest-first by the retention pruning. -/
theorem claim_C5_retention_bound (db : St) (t : Nat) (r1 r2 r3 r4 r5 r6 r7 : String) :
    list_backups
      ((backup r7 ((backup r6 ((backup r5 ((backup r4 ((backup r3 ((backup r2 ((backup r1
        (⟨db, [], t⟩ : Sys)).1)).1)).1)).1)).1)).1)).1) =
      [⟨t + 6, bname (t + 6) r7, db⟩, ⟨t + 5, bname (t + 5) r6, db⟩,
       ⟨t + 4, bname (t + 4) r5, db⟩, ⟨t + 3, bname (t + 3) r4, db⟩,
       ⟨t + 2, bname (t + 2) r3, db⟩] := by
  have e1 : (backup r1 (⟨db, [], t⟩ : Sys)).1 = ⟨db, [⟨t, bname t r1, db⟩], t + 1⟩ := by
    rw [backup_sorted_step r1 _ (by simp) (by simp)]
    rfl
  have e2 : (backup r2 (⟨db, [⟨t, bname t r1, db⟩], t + 1⟩ : Sys)).1
      = ⟨db, [⟨t, bname t r1, db⟩, ⟨t + 1, bname (t + 1) r2, db⟩], t + 2⟩ := by
    rw [backup_sorted_step r2 _ (by simp [List.sorted_cons, snapLe]) (by simp)]
    rfl
  have e3 : (backup r3 (⟨db, [⟨t, bname t r1, db⟩, ⟨t + 1, bname (t + 1) r2, db⟩],
      t + 2⟩ : Sys)).1
      = ⟨db, [⟨t, bname t r1, db⟩, ⟨t + 1, bname (t + 1) r2, db⟩,
          ⟨t + 2, bname (t + 2) r3, db⟩], t + 3⟩ := by
    rw [backup_sorted_step r3 _ (by simp [List.sorted_cons, snapLe])
      (by simp)]
    rfl
  have e4 : (backup r4 (⟨db, [⟨t, bname t r1, db⟩, ⟨t + 1, bname (t + 1) r2, db⟩,
      ⟨t + 2, bname (t + 2) r3, db⟩], t + 3⟩ : Sys)).1
      = ⟨db, [⟨t, bname t r1, db⟩, ⟨t + 1, bname (t + 1) r2, db⟩,
          ⟨t + 2, bname (t + 2) r3, db⟩, ⟨t + 3, bname (t + 3) r4, db⟩], t + 4⟩ := by
    rw [backup_sorted_step r4 _ (by simp [List.sorted_cons, snapLe])
      (by simp)]
    rfl
  have e5 : (backup r5 (⟨db, [⟨t, bname t r1, db⟩, ⟨t + 1, bname (t + 1) r2, db⟩,
      ⟨t + 2, bname (t + 2) r3, db⟩, ⟨t + 3, bname (t + 3) r4, db⟩], t + 4⟩ : Sys)).1
      = ⟨db, [⟨t, bname t r1, db⟩, ⟨t + 1, bname (t + 1) r2, db⟩,
          ⟨t + 2, bname (t + 2) r3, db⟩, ⟨t + 3, bname (t + 3) r4, db⟩,
          ⟨t + 4, bname (t + 4) r5, db⟩], t + 5⟩ := by
    rw [backup_sorted_step r5 _ (by simp [List.sorted_cons, snapLe])
      (by simp)]
    rfl
  have e6 : (backup r6 (⟨db, [⟨t, bname t r1, db⟩, ⟨t + 1, bname (t + 1) r2, db⟩,
      ⟨t + 2, bname (t + 2) r3, db⟩, ⟨t + 3, bname (t + 3) r4, db⟩,
      ⟨t + 4, bname (t + 4) r5, db⟩], t + 5⟩ : Sys)).1
      = ⟨db, [⟨t + 1, bname (t + 1) r2, db⟩, ⟨t + 2, bname (t + 2) r3, db⟩,
          ⟨t + 3, bname (t + 3) r4, db⟩, ⟨t + 4, bname (t + 4) r5, db⟩,
          ⟨t + 5, bname (t + 5) r6, db⟩], t + 6⟩ := by
    rw [backup_sorted_step r6 _ (by simp [List.sorted_cons, snapLe])
      (by simp)]
    rfl
  have e7 : (backup r7 (⟨db, [⟨t + 1, bname (t + 1) r2, db⟩, ⟨t + 2, bname (t + 2) r3, db⟩,
      ⟨t + 3, bname (t + 3) r4, db⟩, ⟨t + 4, bname (t + 4) r5, db⟩,
      ⟨t + 5, bname (t + 5) r6, db⟩], t + 6⟩ : Sys)).1
      = ⟨db, [⟨t + 2, bname (t + 2) r3, db⟩, ⟨t + 3, bname (t + 3) r4, db⟩,
          ⟨t + 4, bname (t + 4) r5, db⟩, ⟨t + 5, bname (t + 5) r6, db⟩,
          ⟨t + 6, bname (t + 6) r7, db⟩], t + 7⟩ := by
    rw [backup_sorted_step r7 _ (by simp [List.sorted_cons, snapLe])
      (by simp)]
    rfl
  rw [e1, e2, e3, e4, e5, e6, e7]
  unfold list_backups
  rw [List.Sorted.insertionSort_eq (by simp [List.sorted_cons, snapLe])]
  simp [pyStartsWith_bname]

/-- **C6** (counterexample). The claim says every path that is not a
valid existing snapshot directory fails with the NotFound error and
leaves the live index unchanged.  The code checks only
`Path(backup_path).is_dir()`: `somedir` is an existing directory that is
not a snapshot of the state (no snapshot bears its name), yet `restore`
accepts it, reports success and replaces the live collection with that
directory's contents — the live index is clobbered instead of the call
failing. -/
theorem claim_C6_counterexample :
    (∀ b ∈ wSysR.backups, b.name ≠ "somedir") ∧
    restore wFs "somedir" wSysR = (true, { wSysR with db := ([] : St) }) ∧
    ({ wSysR with db := ([] : St) }).db ≠ wSysR.db :=
  ⟨by decide, rfl, by decide⟩

/-- **C6** (amended claim). `restore(path)` fails — the `False` return
surfaced to the caller — with the whole state (collection, backups,
clock) unchanged exactly when `path` names no existing directory; for
every path that names an existing directory, snapshot or not, it reports
success, replaces the live collection with a copy of that directory's
contents and reinitializes the index adapter against it.  Only existence
is validated: being a snapshot is never checked. -/
theorem claim_C6_restore_amended (fs : String → Option St) (path : String) (sys : Sys) :
    (fs path = none → restore fs path sys = (false, sys)) ∧
    ∀ c, fs path = some c → restore fs path sys = (true, { sys with db := c }) := by
  constructor
  · intro h
    unfold restore
    rw [h]
  · intro c h
    unfold restore
    rw [h]

/-- Witness for C6's amended claim: restoring a nonexistent path fails
and changes nothing, and restoring the existing snapshot directory
replaces the collection with the snapshot's contents. -/
theorem claim_C6_witness :
    restore wFs "nope" wSysR = (false, wSysR) ∧
    restore wFs "backup_4_manual" wSysR = (true, { wSysR with db := [wRec1, wRec2] }) :=
  ⟨(claim_C6_restore_amended wFs "nope" wSysR).1 rfl,
   (claim_C6_restore_amended wFs "backup_4_manual" wSysR).2 [wRec1, wRec2] rfl⟩

/-- **C8** (amended claim). The delete-by-entry-id operation follows the
destructive-call sequence — it snapshots the pre-deletion state with
reason `pre-delete`, resolves its targets by string-prefix match over all
stored ids and deletes exactly those records — but it returns a boolean
(whether any id matched), not the count of chunks deleted. -/
theorem claim_C8_delete_by_id_amended (sys : Sys) (entry_id : String)
    (hinv : ∀ b ∈ sys.backups, b.ctime < sys.clock) :
    presnap "pre-delete" sys ∈ ((delete_entry_by_id entry_id sys).2).backups ∧
    ((delete_entry_by_id entry_id sys).2).db
      = sys.db.filter (fun r => !(pyStartsWith r.id entry_id)) ∧
    (delete_entry_by_id entry_id sys).1
      = !(sys.db.filter fun r => pyStartsWith r.id entry_id).isEmpty := by
  refine ⟨?_, ?_, ?_⟩
  · rw [delete_by_id_backups]
    exact presnap_mem_backup "pre-delete" sys hinv
  · unfold delete_entry_by_id
    dsimp only []
    rw [backup_db]
    by_cases hm : (sys.db.filter fun r => pyStartsWith r.id entry_id).isEmpty = true
    · rw [if_pos hm]
      show ((backup "pre-delete" sys).1).db = _
      rw [backup_db]
      exact (isEmpty_filter_not_eq_self _ sys.db hm).symm
    · rw [if_neg hm]
  · unfold delete_entry_by_id
    dsimp only []
    rw [backup_db]
    by_cases hm : (sys.db.filter fun r => pyStartsWith r.id entry_id).isEmpty = true
    · rw [if_pos hm, hm]
      rfl
    · rw [if_neg hm]
      rw [Bool.not_eq_true] at hm
      rw [hm]
      rfl

/-- Witness for C8's amended claim: on a concrete two-chunk index the
operation leaves the pre-deletion snapshot, deletes both matching chunks
and returns `true`. -/
theorem claim_C8_witness :
    presnap "pre-delete" wSysB ∈ ((delete_entry_by_id "2025-01-15" wSysB).2).backups ∧
    ((delete_entry_by_id "2025-01-15" wSysB).2).db = [] ∧
    (delete_entry_by_id "2025-01-15" wSysB).1 = true := by
  have h := claim_C8_delete_by_id_amended wSysB "2025-01-15" (by intro b hb; cases hb)
  exact ⟨h.1, by rw [h.2.1]; rfl, by rw [h.2.2]; rfl⟩

/-- Every member of a sorted list is at most its last element. -/
theorem sorted_mem_le_getLast :
    ∀ (l : List String), List.Sorted (· ≤ ·) l → ∀ (h : l ≠ []) (d : String), d ∈ l →
      d ≤ l.getLast h := by
  intro l
  induction l with
  | nil => intro _ h; exact absurd rfl h
  | cons a l ih =>
    intro hs h d hd
    cases l with
    | nil =>
      simp at hd
      subst hd
      exact le_of_eq rfl
    | cons b l2 =>
      rw [List.getLast_cons (by simp)]
      rcases List.mem_cons.mp hd with rfl | hd2
      · exact List.rel_of_sorted_cons hs _ (List.getLast_mem _)
      · exact ih (List.sorted_cons.mp hs).2 (by simp) d hd2

/-- **C3** (amended claim). On every non-empty collection, `get_stats`
reports `total_entries` equal to the number of unique dates,
`total_chunks` equal to the number of stored chunks, `total_words` equal
to the sum of `word_count` over **all stored chunks** (once per chunk, not
once per unique date as the original claim said), and a `date_range` whose
`first` and `last` are dates present in the collection bounding every
stored date below and above. -/
theorem claim_C3_stats_amended (st : St) (hne : st ≠ []) :
    (get_stats st).total_entries = (st.map fun r => r.metadata.date).dedup.length ∧
    (get_stats st).total_chunks = st.length ∧
    (get_stats st).total_words = (st.map fun r => r.metadata.word_count).sum ∧
    ∃ f l, (get_stats st).first = some f ∧ (get_stats st).last = some l ∧
      f ∈ st.map (fun r => r.metadata.date) ∧ l ∈ st.map (fun r => r.metadata.date) ∧
      ∀ d ∈ st.map (fun r => r.metadata.date), f ≤ d ∧ d ≤ l := by
  refine ⟨(List.perm_insertionSort _ _).length_eq, rfl, rfl, ?_⟩
  have hd : st.map (fun r => r.metadata.date) ≠ [] := by
    simpa [List.map_eq_nil_iff] using hne
  have hdd : (st.map fun r => r.metadata.date).dedup ≠ [] := by
    rw [Ne, List.dedup_eq_nil]
    exact hd
  have hu : List.insertionSort (· ≤ ·) (st.map fun r => r.metadata.date).dedup ≠ [] := by
    intro h0
    have hl := (List.perm_insertionSort (· ≤ ·) (st.map fun r => r.metadata.date).dedup).length_eq
    rw [h0] at hl
    exact hdd (List.length_eq_zero.mp hl.symm)
  have hs : List.Sorted (· ≤ ·)
      (List.insertionSort (· ≤ ·) (st.map fun r => r.metadata.date).dedup) :=
    List.sorted_insertionSort (· ≤ ·) _
  have hmem : ∀ d : String, d ∈ List.insertionSort (· ≤ ·) (st.map fun r => r.metadata.date).dedup
      ↔ d ∈ st.map (fun r => r.metadata.date) := by
    intro d
    rw [List.mem_insertionSort, List.mem_dedup]
  obtain ⟨f, rest, he⟩ := List.exists_cons_of_ne_nil hu
  refine ⟨f, (List.insertionSort (· ≤ ·) (st.map fun r => r.metadata.date).dedup).getLast hu,
    ?_, ?_, ?_, ?_, ?_⟩
  · show (List.insertionSort (· ≤ ·) (st.map fun r => r.metadata.date).dedup).head? = some f
    rw [he]
    rfl
  · show (List.insertionSort (· ≤ ·) (st.map fun r => r.metadata.date).dedup).getLast? = _
    exact List.getLast?_eq_getLast_of_ne_nil hu
  · exact (hmem f).mp (he ▸ List.mem_cons_self f rest)
  · exact (hmem _).mp (List.getLast_mem hu)
  · intro d hdm
    constructor
    · have hdu := (hmem d).mpr hdm
      rw [he] at hdu
      rcases List.mem_cons.mp hdu with rfl | hd2
      · exact le_refl d
      · exact List.rel_of_sorted_cons (he ▸ hs) d hd2
    · exact sorted_mem_le_getLast _ hs hu d ((hmem d).mpr hdm)

/-- Witness for C3's amended claim: on a concrete two-date collection the
reported date range brackets every stored date. -/
theorem claim_C3_witness :
    ∃ f l, (get_stats [wRec1, wRec3]).first = some f ∧
      (get_stats [wRec1, wRec3]).last = some l ∧
      f ∈ [wRec1, wRec3].map (fun r => r.metadata.date) ∧
      l ∈ [wRec1, wRec3].map (fun r => r.metadata.date) ∧
      ∀ d ∈ [wRec1, wRec3].map (fun r => r.metadata.date), f ≤ d ∧ d ≤ l :=
  (claim_C3_stats_amended [wRec1, wRec3] (by decide)).2.2.2

end JournalRag
